import Mathlib

/-!
Shallow embedding of `app/app.py` (ABAP MARC/MARD obsolete-fields scanner,
SAP Note 2267246).

Texts are embedded as `List Char`; offsets are `Nat` indices into that list,
exactly mirroring Python string offsets for the ASCII inputs involved.  The
four regular expressions of the source are embedded as explicit scanners with
Python `re` semantics (leftmost match, lazy/greedy behaviour resolved as the
backtracking engine resolves it for these concrete patterns, `finditer`
resuming at each match end, IGNORECASE via upper-casing, DOTALL, and the
non-MULTILINE `$` that also matches just before a trailing newline).
-/

namespace DBRule

/-- Character class of the regex word characters `[A-Za-z0-9_]` (ASCII, as all
patterns in the source only involve ASCII); used for `\b` and `[A-Z0-9_]+`
(the latter under IGNORECASE). -/
def wordChar (c : Char) : Bool :=
  (65 ≤ c.toNat && c.toNat ≤ 90) || (97 ≤ c.toNat && c.toNat ≤ 122) ||
  (48 ≤ c.toNat && c.toNat ≤ 57) || (c.toNat == 95)

/-- Character class of `\s` (ASCII part): space, tab, newline, carriage
return, vertical tab, form feed. -/
def isSpace (c : Char) : Bool :=
  c.toNat == 32 || c.toNat == 9 || c.toNat == 10 ||
  c.toNat == 13 || c.toNat == 11 || c.toNat == 12

/-- Separator class of `re.split(r"[,\s]+", ...)`. -/
def sepChar (c : Char) : Bool := c.toNat == 44 || isSpace c

/-- Upper-casing of a captured group, modelling Python `str.upper()` on ASCII
text (`Char.toUpper` is exactly the ASCII upper-casing). -/
def upper (l : List Char) : List Char := l.map Char.toUpper

/-- Registry: `OBSOLETE_FIELDS["MARC"]`. -/
def marcFields : List (List Char) :=
  ["MEGRU".data, "USEQU".data, "ALTSL".data, "MDACH".data,
   "DPLFS".data, "DPLPU".data, "DPLHO".data, "FHORI".data]

/-- Registry: `OBSOLETE_FIELDS["MARD"]`. -/
def mardFields : List (List Char) :=
  ["DISKZ".data, "LSOBS".data, "LMINB".data, "LBSTF".data]

def marcChars : List Char := "MARC".data
def mardChars : List Char := "MARD".data

/-- The registry `OBSOLETE_FIELDS`, as an association list in the source's
insertion order. -/
def OBSOLETE_FIELDS : List (List Char × List (List Char)) :=
  [(marcChars, marcFields), (mardChars, mardFields)]

/-- `OBSOLETE_FIELDNAMES`: the flattened set of all obsolete field names
across tables (a list used only through membership). -/
def OBSOLETE_FIELDNAMES : List (List Char) :=
  OBSOLETE_FIELDS.flatMap (·.2)

/-- `OBSOLETE_FIELDS.get(table, [])`. -/
def tblLookup (t : List Char) : List (List Char) :=
  (OBSOLETE_FIELDS.lookup t).getD []

/-- `table in OBSOLETE_FIELDS`. -/
def isWatched (t : List Char) : Bool :=
  (OBSOLETE_FIELDS.lookup t).isSome

/-- `s[i]` as Python indexing into the text, `none` out of range. -/
def charAt (s : List Char) (i : Nat) : Option Char := s.get? i

/-- Whether an optional character has code point `n` (used for the literal
characters `-` (45) and the trailing-newline test of `$` (10)). -/
def optCode (o : Option Char) (n : Nat) : Bool :=
  match o with
  | some c => c.toNat == n
  | none => false

/-- Whether position `i` holds a word character (out of range counts as no). -/
def isWordAt (s : List Char) (i : Nat) : Bool :=
  match charAt s i with
  | some c => wordChar c
  | none => false

/-- Python `\b` at position `i`: a word/non-word transition, with the outside
of the string counting as non-word. -/
def wb (s : List Char) (i : Nat) : Bool :=
  (if i = 0 then false else isWordAt s (i - 1)) != isWordAt s i

/-- Case-insensitive literal match of `kw` (given upper-cased) at position
`i`, modelling an IGNORECASE literal in the patterns. -/
def litAtCI (s : List Char) (i : Nat) : List Char → Bool
  | [] => true
  | c :: cs =>
    match charAt s i with
    | some d => (d.toUpper = c : Bool) && litAtCI s (i + 1) cs
    | none => false

def selectChars : List Char := "SELECT".data
def fromChars : List Char := "FROM".data
def typeChars : List Char := "TYPE".data
def likeChars : List Char := "LIKE".data

/-- `\bKW\b` at position `i`. -/
def keywordAt (s : List Char) (i : Nat) (kw : List Char) : Bool :=
  wb s i && litAtCI s i kw && wb s (i + kw.length)

/-- Length of the maximal leading whitespace run (`\s+` greedily). -/
def leadingWS : List Char → Nat
  | [] => 0
  | c :: cs => if isSpace c then leadingWS cs + 1 else 0

/-- Length of the maximal leading word-character run (`[A-Z0-9_]+` greedily,
under IGNORECASE). -/
def leadingWord : List Char → Nat
  | [] => 0
  | c :: cs => if wordChar c then leadingWord cs + 1 else 0

/-- The alternation `(?P<table>MARC|MARD)\b` at position `i` (as in
`SQL_STMT_RE`), returning the upper-cased captured table name. -/
def tableAt (s : List Char) (i : Nat) : Option (List Char) :=
  if litAtCI s i marcChars && wb s (i + 4) then some marcChars
  else if litAtCI s i mardChars && wb s (i + 4) then some mardChars
  else none

/-- One step of the `\bFROM\b\s+(?P<table>MARC|MARD)\b` tail of `SQL_STMT_RE`
at position `p`: on success returns the table-name start and the captured
table.  `\s+` is greedy, but only the maximal run can be followed by `M`, so
matching at the maximal run is exactly the backtracking behaviour. -/
def fromTableAt (s : List Char) (p : Nat) : Option (Nat × List Char) :=
  if keywordAt s p fromChars then
    let w := leadingWS (s.drop (p + 4))
    if w = 0 then none
    else
      match tableAt s (p + 4 + w) with
      | some t => some (p + 4 + w, t)
      | none => none
  else none

def fromTableHere (s : List Char) (p : Nat) : Bool :=
  (fromTableAt s p).isSome

/-- Resolution of the lazy `(?P<select_part>.*?)` (DOTALL): the first
position `p ≥ i` at which the `FROM`-table tail matches. -/
def findFrom (s : List Char) (p fuel : Nat) : Option (Nat × Nat × List Char) :=
  match fuel with
  | 0 => none
  | fuel + 1 =>
    match fromTableAt s p with
    | some (ts, t) => some (p, ts, t)
    | none => if s.length < p then none else findFrom s (p + 1) fuel

/-- The lookahead `(?=\bSELECT\b|$)` at position `q` (no MULTILINE: `$` also
matches just before a trailing newline). -/
def stmtEndCond (s : List Char) (q : Nat) : Bool :=
  keywordAt s q selectChars || decide (s.length ≤ q) ||
  (decide (q + 1 = s.length) && optCode (charAt s q) 10)

/-- Resolution of the lazy `(?P<rest>.*?)(?=\bSELECT\b|$)`: the first
position `q` at or after the table end where the lookahead holds. -/
def findEnd (s : List Char) (q fuel : Nat) : Nat :=
  match fuel with
  | 0 => q
  | fuel + 1 => if stmtEndCond s q then q else findEnd s (q + 1) fuel

/-- One match of `SQL_STMT_RE`: the spans of its three zones.  The
select-part zone is `[mstart+6, fromPos)`, the rest zone is
`[tblStart+4, mend)`, and the whole-match span is `(mstart, mend)`. -/
structure SqlMatch where
  mstart : Nat
  fromPos : Nat
  table : List Char
  tblStart : Nat
  mend : Nat
deriving DecidableEq

/-- `SQL_STMT_RE.finditer`: leftmost matches, resuming at each match end. -/
def sqlFindIter (s : List Char) (i fuel : Nat) : List SqlMatch :=
  match fuel with
  | 0 => []
  | fuel + 1 =>
    if s.length < i then []
    else if keywordAt s i selectChars then
      match findFrom s (i + 6) (s.length + 1) with
      | some (fp, ts, t) =>
        let e := findEnd s (ts + 4) (s.length + 1)
        ⟨i, fp, t, ts, e⟩ :: sqlFindIter s e fuel
      | none => sqlFindIter s (i + 1) fuel
    else sqlFindIter s (i + 1) fuel

def sqlMatches (s : List Char) : List SqlMatch :=
  sqlFindIter s 0 (s.length + 1)

/-- Python slice `s[a:b]`. -/
def sub (s : List Char) (a b : Nat) : List Char := (s.drop a).take (b - a)

/-- One match of `QUALIFIED_FIELD_RE` (also used for the table-field tail of
`DECLARATION_QUAL_RE`): captured table (canonical upper case), upper-cased
captured field, and the match span. -/
structure QMatch where
  table : List Char
  field : List Char
  qstart : Nat
  qend : Nat
deriving DecidableEq

/-- The alternation `(MARC|MARD)-` at position `i`. -/
def qualAt (t : List Char) (i : Nat) : Option (List Char) :=
  if litAtCI t i marcChars && optCode (charAt t (i + 4)) 45 then some marcChars
  else if litAtCI t i mardChars && optCode (charAt t (i + 4)) 45 then some mardChars
  else none

/-- `QUALIFIED_FIELD_RE.finditer` over a text `t`: spans are offsets into
`t` itself (which in `scan_sql` is a captured substring, not the caller's
text).  The trailing `\b` after the greedy `[A-Z0-9_]+` always holds at the
maximal run. -/
def qualFindIter (t : List Char) (i fuel : Nat) : List QMatch :=
  match fuel with
  | 0 => []
  | fuel + 1 =>
    if t.length < i then []
    else
      match (if wb t i then qualAt t i else none) with
      | some tb =>
        let k := leadingWord (t.drop (i + 5))
        if k = 0 then qualFindIter t (i + 1) fuel
        else ⟨tb, upper (sub t (i + 5) (i + 5 + k)), i, i + 5 + k⟩ ::
          qualFindIter t (i + 5 + k) fuel
      | none => qualFindIter t (i + 1) fuel

/-- A finding as emitted by `scan_sql` / `scan_declarations`. -/
structure Finding where
  table : Option (List Char)
  field : List Char
  span : Nat × Nat
  suggested_statement : List Char
deriving DecidableEq

/-- `todo_comment` of the source. -/
def todo_comment (table field : List Char) : List Char :=
  "* TODO: ".data ++ upper table ++ "-".data ++ upper field ++
  " is obsolete in S/4HANA (SAP Note 2267246). The related functionality is no longer available; remove or replace usage.".data

/-- `todo_comment_dataelement` of the source. -/
def todo_comment_dataelement (field : List Char) : List Char :=
  "* TODO: Data element ".data ++ upper field ++
  " relates to obsolete field in S/4HANA (SAP Note 2267246). Remove or replace usage.".data

/-- The qualified-usage loop body of `scan_sql` (and of the qualified branch
of `scan_declarations`): keep the matches whose table is watched and whose
field is obsolete for that table. -/
def qualFindings (t : List Char) : List Finding :=
  (qualFindIter t 0 (t.length + 1)).filterMap fun qm =>
    if isWatched qm.table && (tblLookup qm.table).contains qm.field then
      some ⟨some qm.table, qm.field, (qm.qstart, qm.qend),
        todo_comment qm.table qm.field⟩
    else none

/-- Python `str.strip()` (whitespace from both ends). -/
def stripWS (l : List Char) : List Char :=
  ((l.dropWhile isSpace).reverse.dropWhile isSpace).reverse

mutual
/-- Helper of `re.split(r"[,\s]+", s)`: consuming a separator run. -/
def splitSepSkip : List Char → List (List Char)
  | [] => [[]]
  | c :: cs => if sepChar c then splitSepSkip cs else splitSepTok cs [c]

/-- Helper of `re.split(r"[,\s]+", s)`: accumulating the current token. -/
def splitSepTok : List Char → List Char → List (List Char)
  | [], acc => [acc.reverse]
  | c :: cs, acc =>
    if sepChar c then acc.reverse :: splitSepSkip cs
    else splitSepTok cs (c :: acc)
end

/-- `re.split(r"[,\s]+", s)`. -/
def splitSep (l : List Char) : List (List Char) := splitSepTok l []

/-- `fld.replace(".", "").upper()`. -/
def procTok (tok : List Char) : List Char :=
  upper (tok.filter fun c => !(c.toNat == 46))

/-- The select-part token list of a statement match. -/
def selTokens (s : List Char) (m : SqlMatch) : List (List Char) :=
  splitSep (stripWS (sub s (m.mstart + 6) m.fromPos))

/-- The unqualified selection-list loop of `scan_sql`: tokens of the stripped
select part, cleaned, kept when obsolete for the statement's own table;
anchored at the whole-statement span. -/
def unqualFindings (s : List Char) (m : SqlMatch) : List Finding :=
  (selTokens s m).filterMap fun tok =>
    let fldUp := procTok tok
    if (tblLookup m.table).contains fldUp then
      some ⟨some m.table, fldUp, (m.mstart, m.mend), todo_comment m.table fldUp⟩
    else none

/-- All findings of one `SQL_STMT_RE` match, in the source's emission order:
qualified in the select part, unqualified tokens, qualified in the rest. -/
def stmtFindings (s : List Char) (m : SqlMatch) : List Finding :=
  qualFindings (sub s (m.mstart + 6) m.fromPos) ++
  unqualFindings s m ++
  qualFindings (sub s (m.tblStart + 4) m.mend)

/-- `scan_sql` of the source. -/
def scan_sql (s : List Char) : List Finding :=
  (sqlMatches s).flatMap (stmtFindings s)

/-- `\b(TYPE|LIKE)\b` at position `i`. -/
def declKwAt (s : List Char) (i : Nat) : Bool :=
  wb s i && (litAtCI s i typeChars || litAtCI s i likeChars) && wb s (i + 4)

/-- `DECLARATION_QUAL_RE.finditer` over the full buffer: keyword, `\s+`
(maximal run, by the same backtracking argument), `(MARC|MARD)-`, then the
greedy field run.  The span starts at the keyword. -/
def declQualIter (s : List Char) (i fuel : Nat) : List QMatch :=
  match fuel with
  | 0 => []
  | fuel + 1 =>
    if s.length < i then []
    else if declKwAt s i then
      let w := leadingWS (s.drop (i + 4))
      if w = 0 then declQualIter s (i + 1) fuel
      else
        match qualAt s (i + 4 + w) with
        | some tb =>
          let k := leadingWord (s.drop (i + 4 + w + 5))
          if k = 0 then declQualIter s (i + 1) fuel
          else ⟨tb, upper (sub s (i + 4 + w + 5) (i + 4 + w + 5 + k)), i,
              i + 4 + w + 5 + k⟩ :: declQualIter s (i + 4 + w + 5 + k) fuel
        | none => declQualIter s (i + 1) fuel
    else declQualIter s (i + 1) fuel

/-- One match of `DECLARATION_DE_RE`: the upper-cased captured identifier and
the match span (starting at the keyword). -/
structure DeMatch where
  field : List Char
  dstart : Nat
  dend : Nat
deriving DecidableEq

/-- `DECLARATION_DE_RE.finditer` over the full buffer: keyword, `\s+`, one
greedy bare identifier (its trailing `\b` holds at the maximal run). -/
def declDeIter (s : List Char) (i fuel : Nat) : List DeMatch :=
  match fuel with
  | 0 => []
  | fuel + 1 =>
    if s.length < i then []
    else if declKwAt s i then
      let w := leadingWS (s.drop (i + 4))
      if w = 0 then declDeIter s (i + 1) fuel
      else
        let k := leadingWord (s.drop (i + 4 + w))
        if k = 0 then declDeIter s (i + 1) fuel
        else ⟨upper (sub s (i + 4 + w) (i + 4 + w + k)), i, i + 4 + w + k⟩ ::
          declDeIter s (i + 4 + w + k) fuel
    else declDeIter s (i + 1) fuel

/-- The qualified-declaration loop of `scan_declarations`. -/
def qualDeclFindings (s : List Char) : List Finding :=
  (declQualIter s 0 (s.length + 1)).filterMap fun qm =>
    if isWatched qm.table && (tblLookup qm.table).contains qm.field then
      some ⟨some qm.table, qm.field, (qm.qstart, qm.qend),
        todo_comment qm.table qm.field⟩
    else none

/-- The data-element declaration loop of `scan_declarations`. -/
def deFindings (s : List Char) : List Finding :=
  (declDeIter s 0 (s.length + 1)).filterMap fun dm =>
    if OBSOLETE_FIELDNAMES.contains dm.field then
      some ⟨none, dm.field, (dm.dstart, dm.dend),
        todo_comment_dataelement dm.field⟩
    else none

/-- `scan_declarations` of the source: qualified scan then data-element scan,
both over the full buffer. -/
def scan_declarations (s : List Char) : List Finding :=
  qualDeclFindings s ++ deFindings s

/-- The request model `Unit` (pydantic); `code` is optional with default
empty text. -/
structure Unit where
  pgm_name : List Char
  inc_name : List Char
  type : List Char
  name : Option (List Char)
  start_line : Option Int
  end_line : Option Int
  code : Option (List Char)
deriving DecidableEq

/-- One entry of the `selects` list built by `remediate_array`. -/
structure SelectMeta where
  table : Option (List Char)
  field : List Char
  target_type : Option (List Char)
  target_name : Option (List Char)
  start_char_in_unit : Nat
  end_char_in_unit : Nat
  used_fields : List (List Char)
  ambiguous : Bool
  suggested_fields : Option (List (List Char))
  suggested_statement : List Char
deriving DecidableEq

/-- The per-hit record built by `remediate_array` for both scans. -/
def hitMeta (h : Finding) : SelectMeta :=
  ⟨h.table, h.field, none, none, h.span.1, h.span.2,
    (match h.table with
     | some t => [t ++ "-".data ++ h.field]
     | none => [h.field]),
    false, none, h.suggested_statement⟩

/-- The `selects` list computed for one unit: `u.code or ""`, scanned by
`scan_sql` then `scan_declarations`. -/
def unitSelects (u : Unit) : List SelectMeta :=
  let src := u.code.getD []
  (scan_sql src).map hitMeta ++ (scan_declarations src).map hitMeta

/-- `remediate_array`: each unit's data, augmented with its `selects`. -/
def remediate_array (units : List Unit) : List (Unit × List SelectMeta) :=
  units.map fun u => (u, unitSelects u)

/-- The single-quote character (code 39), used to spell inputs containing
string literals. -/
def quoteC : Char := Char.ofNat 39

/-- Input of the multi-statement-isolation test: two consecutive statements,
only the first against a watched table. -/
def c1input : List Char := "SELECT MEGRU FROM MARC. SELECT F1 FROM ZTAB2.".data

/-- Input of the qualified-span-precision test. -/
def c2input : List Char := "SELECT MARC-MEGRU FROM MARC.".data

/-- An unwatched-table statement whose filter clause contains `MARC-`. -/
def c3input : List Char := "SELECT A FROM ZTAB WHERE MARC-MEGRU = 1.".data

/-- The declaration-scan-overlap example input. -/
def c4input : List Char := "DATA x TYPE MARC-ALTSL.".data

/-- The qualified-declaration example input. -/
def c5input : List Char := "DATA lv_x TYPE MARD-LSOBS.".data

/-- The unqualified-selection-list example input (`... MATNR = '1'.`). -/
def c6input : List Char :=
  "SELECT MEGRU FROM MARC WHERE MATNR = ".data ++ [quoteC, '1', quoteC, '.']

/-- The data-element declaration example input. -/
def c7input : List Char := "DATA lv_y TYPE ALTSL.".data

/-- Lower-case variant for the case-insensitivity test. -/
def c8lower : List Char := "select megru from marc.".data

/-- Upper-case variant for the case-insensitivity test. -/
def c8upper : List Char := "SELECT MEGRU FROM MARC.".data

/-- The registry invariant every emitted finding satisfies: the field is in
the flattened obsolete set; a present table is MARC or MARD with the field in
that table's own list and the table-specific remediation template; an absent
table comes with the generic data-element template. -/
def findingOK (f : Finding) : Bool :=
  match f.table with
  | some t =>
    (decide (t = marcChars) || decide (t = mardChars)) &&
    (tblLookup t).contains f.field &&
    OBSOLETE_FIELDNAMES.contains f.field &&
    decide (f.suggested_statement = todo_comment t f.field)
  | none =>
    OBSOLETE_FIELDNAMES.contains f.field &&
    decide (f.suggested_statement = todo_comment_dataelement f.field)

/- ------------------------------------------------------------------ -/
/- Character-level lemmas: ASCII upper-casing facts.                   -/
/- ------------------------------------------------------------------ -/

theorem toNat_ofNat_valid (n : Nat) (h : n < 55296) : (Char.ofNat n).toNat = n := by
  have hv : n.isValidChar := Or.inl h
  unfold Char.ofNat
  rw [dif_pos hv]
  rfl

theorem toUpper_toNat (c : Char) :
    (Char.toUpper c).toNat =
      if c.toNat ≥ 97 ∧ c.toNat ≤ 122 then c.toNat - 32 else c.toNat := by
  unfold Char.toUpper
  by_cases h : Char.toNat c ≥ 97 ∧ Char.toNat c ≤ 122
  · rw [if_pos h, if_pos h]
    exact toNat_ofNat_valid _ (by omega)
  · rw [if_neg h, if_neg h]

theorem toUpper_eq_self {c : Char} (h : ¬(c.toNat ≥ 97 ∧ c.toNat ≤ 122)) :
    Char.toUpper c = c := by
  unfold Char.toUpper
  rw [if_neg h]

theorem toUpper_toUpper (c : Char) : (Char.toUpper c).toUpper = Char.toUpper c := by
  apply toUpper_eq_self
  have h := toUpper_toNat c
  by_cases hc : Char.toNat c ≥ 97 ∧ Char.toNat c ≤ 122
  · rw [if_pos hc] at h; omega
  · rw [if_neg hc] at h; omega

theorem wordChar_toUpper (c : Char) : wordChar (Char.toUpper c) = wordChar c := by
  have h := toUpper_toNat c
  rw [Bool.eq_iff_iff]
  simp only [wordChar, Bool.or_eq_true, Bool.and_eq_true, decide_eq_true_eq,
    beq_iff_eq]
  by_cases hc : Char.toNat c ≥ 97 ∧ Char.toNat c ≤ 122
  · rw [if_pos hc] at h; omega
  · rw [if_neg hc] at h; omega

theorem isSpace_toUpper (c : Char) : isSpace (Char.toUpper c) = isSpace c := by
  have h := toUpper_toNat c
  rw [Bool.eq_iff_iff]
  simp only [isSpace, Bool.or_eq_true, beq_iff_eq]
  by_cases hc : Char.toNat c ≥ 97 ∧ Char.toNat c ≤ 122
  · rw [if_pos hc] at h; omega
  · rw [if_neg hc] at h; omega

theorem sepChar_toUpper (c : Char) : sepChar (Char.toUpper c) = sepChar c := by
  have h := toUpper_toNat c
  rw [Bool.eq_iff_iff]
  simp only [sepChar, isSpace, Bool.or_eq_true, beq_iff_eq]
  by_cases hc : Char.toNat c ≥ 97 ∧ Char.toNat c ≤ 122
  · rw [if_pos hc] at h; omega
  · rw [if_neg hc] at h; omega

theorem toUpper_code_small (c : Char) (n : Nat) (hn : n < 65) :
    ((Char.toUpper c).toNat == n) = (c.toNat == n) := by
  have h := toUpper_toNat c
  rw [Bool.eq_iff_iff]
  simp only [beq_iff_eq]
  by_cases hc : Char.toNat c ≥ 97 ∧ Char.toNat c ≤ 122
  · rw [if_pos hc] at h; omega
  · rw [if_neg hc] at h; omega

/- ------------------------------------------------------------------ -/
/- Upper-casing the whole input text leaves every scanner unchanged.   -/
/- ------------------------------------------------------------------ -/

theorem charAt_map (s : List Char) (i : Nat) :
    charAt (s.map Char.toUpper) i = (charAt s i).map Char.toUpper :=
  List.get?_map Char.toUpper s i

theorem isWordAt_map (s : List Char) (i : Nat) :
    isWordAt (s.map Char.toUpper) i = isWordAt s i := by
  unfold isWordAt
  rw [charAt_map]
  cases charAt s i with
  | none => rfl
  | some c => exact wordChar_toUpper c

theorem wb_map (s : List Char) (i : Nat) :
    wb (s.map Char.toUpper) i = wb s i := by
  unfold wb
  rw [isWordAt_map, isWordAt_map]

theorem litAtCI_map (s : List Char) (i : Nat) (kw : List Char) :
    litAtCI (s.map Char.toUpper) i kw = litAtCI s i kw := by
  induction kw generalizing i with
  | nil => rfl
  | cons c cs ih =>
    unfold litAtCI
    rw [charAt_map]
    cases charAt s i with
    | none => rfl
    | some d =>
      show (decide ((Char.toUpper d).toUpper = c) && litAtCI (s.map Char.toUpper) (i + 1) cs) = _
      rw [toUpper_toUpper, ih]

theorem keywordAt_map (s : List Char) (i : Nat) (kw : List Char) :
    keywordAt (s.map Char.toUpper) i kw = keywordAt s i kw := by
  unfold keywordAt
  rw [wb_map, wb_map, litAtCI_map]

theorem leadingWS_map (l : List Char) :
    leadingWS (l.map Char.toUpper) = leadingWS l := by
  induction l with
  | nil => rfl
  | cons c cs ih =>
    unfold leadingWS
    rw [List.map_cons] at *
    show (if isSpace (Char.toUpper c) then leadingWS (cs.map Char.toUpper) + 1 else 0) = _
    rw [isSpace_toUpper, ih]

theorem leadingWord_map (l : List Char) :
    leadingWord (l.map Char.toUpper) = leadingWord l := by
  induction l with
  | nil => rfl
  | cons c cs ih =>
    show (if wordChar (Char.toUpper c) then leadingWord (cs.map Char.toUpper) + 1 else 0) = _
    rw [wordChar_toUpper, ih]
    rfl

theorem optCode_map (s : List Char) (i n : Nat) (hn : n < 65) :
    optCode (charAt (s.map Char.toUpper) i) n = optCode (charAt s i) n := by
  rw [charAt_map]
  cases charAt s i with
  | none => rfl
  | some c => exact toUpper_code_small c n hn

theorem tableAt_map (s : List Char) (i : Nat) :
    tableAt (s.map Char.toUpper) i = tableAt s i := by
  unfold tableAt
  rw [litAtCI_map, litAtCI_map, wb_map]

theorem leadingWS_drop_map (s : List Char) (j : Nat) :
    leadingWS (List.drop j (s.map Char.toUpper)) = leadingWS (List.drop j s) := by
  rw [← List.map_drop, leadingWS_map]

theorem leadingWord_drop_map (s : List Char) (j : Nat) :
    leadingWord (List.drop j (s.map Char.toUpper)) = leadingWord (List.drop j s) := by
  rw [← List.map_drop, leadingWord_map]

theorem fromTableAt_map (s : List Char) (p : Nat) :
    fromTableAt (s.map Char.toUpper) p = fromTableAt s p := by
  unfold fromTableAt
  simp only [keywordAt_map, leadingWS_drop_map, tableAt_map]

theorem findFrom_map (s : List Char) (p fuel : Nat) :
    findFrom (s.map Char.toUpper) p fuel = findFrom s p fuel := by
  induction fuel generalizing p with
  | zero => rfl
  | succ fuel ih =>
    unfold findFrom
    simp only [fromTableAt_map, List.length_map, ih]

theorem stmtEndCond_map (s : List Char) (q : Nat) :
    stmtEndCond (s.map Char.toUpper) q = stmtEndCond s q := by
  unfold stmtEndCond
  rw [keywordAt_map, List.length_map, optCode_map s q 10 (by omega)]

theorem findEnd_map (s : List Char) (q fuel : Nat) :
    findEnd (s.map Char.toUpper) q fuel = findEnd s q fuel := by
  induction fuel generalizing q with
  | zero => rfl
  | succ fuel ih =>
    unfold findEnd
    rw [stmtEndCond_map, ih]

theorem sqlFindIter_map (s : List Char) (i fuel : Nat) :
    sqlFindIter (s.map Char.toUpper) i fuel = sqlFindIter s i fuel := by
  induction fuel generalizing i with
  | zero => rfl
  | succ fuel ih =>
    unfold sqlFindIter
    simp only [List.length_map, keywordAt_map, findFrom_map, findEnd_map, ih]

theorem sqlMatches_map (s : List Char) :
    sqlMatches (s.map Char.toUpper) = sqlMatches s := by
  unfold sqlMatches
  rw [List.length_map, sqlFindIter_map]

theorem sub_map (s : List Char) (a b : Nat) :
    sub (s.map Char.toUpper) a b = (sub s a b).map Char.toUpper := by
  unfold sub
  rw [← List.map_drop, ← List.map_take]

theorem upper_map (l : List Char) : upper (l.map Char.toUpper) = upper l := by
  unfold upper
  rw [List.map_map]
  exact List.map_congr_left fun a _ => toUpper_toUpper a

theorem qualAt_map (t : List Char) (i : Nat) :
    qualAt (t.map Char.toUpper) i = qualAt t i := by
  unfold qualAt
  rw [litAtCI_map, litAtCI_map, optCode_map t (i + 4) 45 (by omega)]

theorem qualFindIter_map (t : List Char) (i fuel : Nat) :
    qualFindIter (t.map Char.toUpper) i fuel = qualFindIter t i fuel := by
  induction fuel generalizing i with
  | zero => rfl
  | succ fuel ih =>
    unfold qualFindIter
    rw [List.length_map, wb_map, qualAt_map]
    cases hq : (if wb t i then qualAt t i else none) with
    | none =>
      simp only [ih]
    | some tb =>
      simp only [leadingWord_drop_map, sub_map, upper_map, ih]

theorem qualFindings_map (t : List Char) :
    qualFindings (t.map Char.toUpper) = qualFindings t := by
  unfold qualFindings
  rw [List.length_map, qualFindIter_map]

theorem stripWS_map (l : List Char) :
    stripWS (l.map Char.toUpper) = (stripWS l).map Char.toUpper := by
  unfold stripWS
  rw [List.dropWhile_map,
    show (isSpace ∘ Char.toUpper) = isSpace from funext isSpace_toUpper,
    ← List.map_reverse, List.dropWhile_map,
    show (isSpace ∘ Char.toUpper) = isSpace from funext isSpace_toUpper,
    ← List.map_reverse]

theorem splitSep_map_both (l : List Char) :
    splitSepSkip (l.map Char.toUpper) = (splitSepSkip l).map (List.map Char.toUpper) ∧
    ∀ acc, splitSepTok (l.map Char.toUpper) (acc.map Char.toUpper) =
      (splitSepTok l acc).map (List.map Char.toUpper) := by
  induction l with
  | nil =>
    refine ⟨rfl, fun acc => ?_⟩
    show [(acc.map Char.toUpper).reverse] = [acc.reverse.map Char.toUpper]
    rw [List.map_reverse]
  | cons c cs ih =>
    obtain ⟨ih1, ih2⟩ := ih
    have h2c := ih2 [c]
    constructor
    · show (if sepChar (Char.toUpper c) then splitSepSkip (cs.map Char.toUpper)
        else splitSepTok (cs.map Char.toUpper) [Char.toUpper c]) =
        (if sepChar c then splitSepSkip cs else splitSepTok cs [c]).map (List.map Char.toUpper)
      rw [sepChar_toUpper]
      by_cases hc : sepChar c = true
      · rw [if_pos hc, if_pos hc, ih1]
      · rw [if_neg hc, if_neg hc]
        exact h2c
    · intro acc
      have h2a := ih2 (c :: acc)
      show (if sepChar (Char.toUpper c) then
          (acc.map Char.toUpper).reverse :: splitSepSkip (cs.map Char.toUpper)
        else splitSepTok (cs.map Char.toUpper) (Char.toUpper c :: acc.map Char.toUpper)) =
        (if sepChar c then acc.reverse :: splitSepSkip cs
          else splitSepTok cs (c :: acc)).map (List.map Char.toUpper)
      rw [sepChar_toUpper]
      by_cases hc : sepChar c = true
      · rw [if_pos hc, if_pos hc, ih1, List.map_cons, List.map_reverse]
      · rw [if_neg hc, if_neg hc]
        exact h2a

theorem splitSep_map (l : List Char) :
    splitSep (l.map Char.toUpper) = (splitSep l).map (List.map Char.toUpper) := by
  unfold splitSep
  exact (splitSep_map_both l).2 []

theorem procTok_map (tok : List Char) :
    procTok (tok.map Char.toUpper) = procTok tok := by
  unfold procTok
  rw [List.filter_map]
  have hp : ((fun c : Char => !(c.toNat == 46)) ∘ Char.toUpper) =
      fun c : Char => !(c.toNat == 46) := by
    funext c
    show (!((Char.toUpper c).toNat == 46)) = !(c.toNat == 46)
    rw [toUpper_code_small c 46 (by omega)]
  rw [hp, upper_map]

theorem selTokens_map (s : List Char) (m : SqlMatch) :
    selTokens (s.map Char.toUpper) m = (selTokens s m).map (List.map Char.toUpper) := by
  unfold selTokens
  rw [sub_map, stripWS_map, splitSep_map]

theorem unqualFindings_map (s : List Char) (m : SqlMatch) :
    unqualFindings (s.map Char.toUpper) m = unqualFindings s m := by
  unfold unqualFindings
  rw [selTokens_map, List.filterMap_map]
  congr 1
  funext tok
  simp only [Function.comp, procTok_map]

theorem stmtFindings_map (s : List Char) (m : SqlMatch) :
    stmtFindings (s.map Char.toUpper) m = stmtFindings s m := by
  unfold stmtFindings
  rw [sub_map, sub_map, qualFindings_map, qualFindings_map, unqualFindings_map]

theorem scan_sql_map (s : List Char) :
    scan_sql (s.map Char.toUpper) = scan_sql s := by
  unfold scan_sql
  rw [sqlMatches_map]
  congr 1
  funext m
  exact stmtFindings_map s m

theorem declKwAt_map (s : List Char) (i : Nat) :
    declKwAt (s.map Char.toUpper) i = declKwAt s i := by
  unfold declKwAt
  rw [wb_map, wb_map, litAtCI_map, litAtCI_map]

theorem declQualIter_map (s : List Char) (i fuel : Nat) :
    declQualIter (s.map Char.toUpper) i fuel = declQualIter s i fuel := by
  induction fuel generalizing i with
  | zero => rfl
  | succ fuel ih =>
    unfold declQualIter
    simp only [List.length_map, declKwAt_map, leadingWS_drop_map, qualAt_map,
      leadingWord_drop_map, sub_map, upper_map, ih]

theorem declDeIter_map (s : List Char) (i fuel : Nat) :
    declDeIter (s.map Char.toUpper) i fuel = declDeIter s i fuel := by
  induction fuel generalizing i with
  | zero => rfl
  | succ fuel ih =>
    unfold declDeIter
    simp only [List.length_map, declKwAt_map, leadingWS_drop_map,
      leadingWord_drop_map, sub_map, upper_map, ih]

theorem scan_declarations_map (s : List Char) :
    scan_declarations (s.map Char.toUpper) = scan_declarations s := by
  unfold scan_declarations qualDeclFindings deFindings
  simp only [List.length_map, declQualIter_map, declDeIter_map]

/- ------------------------------------------------------------------ -/
/- Structural facts about the statement iterator.                      -/
/- ------------------------------------------------------------------ -/

theorem charAt_some_lt {s : List Char} {i : Nat} {c : Char}
    (h : charAt s i = some c) : i < s.length := by
  by_contra hge
  rw [charAt, List.get?_eq_none.mpr (by omega)] at h
  exact Option.noConfusion h

theorem litAtCI_bound {s : List Char} (kw : List Char) :
    ∀ i, litAtCI s i kw = true → kw ≠ [] → i + kw.length ≤ s.length := by
  induction kw with
  | nil => intro i _ hne; exact absurd rfl hne
  | cons c cs ih =>
    intro i h _
    unfold litAtCI at h
    cases hc : charAt s i with
    | none => rw [hc] at h; exact Bool.noConfusion h
    | some d =>
      rw [hc] at h
      have hlt := charAt_some_lt hc
      have hrest : litAtCI s (i + 1) cs = true := (Bool.and_eq_true _ _ |>.mp h).2
      cases cs with
      | nil => simp only [List.length_cons, List.length_nil]; omega
      | cons c2 cs2 =>
        have := ih (i + 1) hrest (by simp)
        simp only [List.length_cons] at *
        omega

theorem tableAt_some_bound {s : List Char} {i : Nat} {t : List Char}
    (h : tableAt s i = some t) : i + 4 ≤ s.length := by
  unfold tableAt at h
  by_cases h1 : (litAtCI s i marcChars && wb s (i + 4)) = true
  · exact litAtCI_bound marcChars i (Bool.and_eq_true _ _ |>.mp h1).1 (by simp [marcChars])
  · rw [if_neg h1] at h
    by_cases h2 : (litAtCI s i mardChars && wb s (i + 4)) = true
    · exact litAtCI_bound mardChars i (Bool.and_eq_true _ _ |>.mp h2).1 (by simp [mardChars])
    · rw [if_neg h2] at h
      exact Option.noConfusion h

theorem tableAt_cases {s : List Char} {i : Nat} {t : List Char}
    (h : tableAt s i = some t) : t = marcChars ∨ t = mardChars := by
  unfold tableAt at h
  by_cases h1 : (litAtCI s i marcChars && wb s (i + 4)) = true
  · rw [if_pos h1] at h; exact Or.inl (Option.some.inj h).symm
  · rw [if_neg h1] at h
    by_cases h2 : (litAtCI s i mardChars && wb s (i + 4)) = true
    · rw [if_pos h2] at h; exact Or.inr (Option.some.inj h).symm
    · rw [if_neg h2] at h; exact Option.noConfusion h

theorem qualAt_cases {t : List Char} {i : Nat} {tb : List Char}
    (h : qualAt t i = some tb) : tb = marcChars ∨ tb = mardChars := by
  unfold qualAt at h
  by_cases h1 : (litAtCI t i marcChars && optCode (charAt t (i + 4)) 45) = true
  · rw [if_pos h1] at h; exact Or.inl (Option.some.inj h).symm
  · rw [if_neg h1] at h
    by_cases h2 : (litAtCI t i mardChars && optCode (charAt t (i + 4)) 45) = true
    · rw [if_pos h2] at h; exact Or.inr (Option.some.inj h).symm
    · rw [if_neg h2] at h; exact Option.noConfusion h

theorem fromTableAt_some {s : List Char} {p ts : Nat} {t : List Char}
    (h : fromTableAt s p = some (ts, t)) :
    p + 5 ≤ ts ∧ tableAt s ts = some t := by
  unfold fromTableAt at h
  by_cases hk : keywordAt s p fromChars = true
  · rw [if_pos hk] at h
    simp only at h
    by_cases hw : leadingWS (s.drop (p + 4)) = 0
    · rw [if_pos hw] at h; exact Option.noConfusion h
    · rw [if_neg hw] at h
      cases ht : tableAt s (p + 4 + leadingWS (s.drop (p + 4))) with
      | none => rw [ht] at h; exact Option.noConfusion h
      | some t' =>
        rw [ht] at h
        have hin := Option.some.inj h
        have h1 : p + 4 + leadingWS (s.drop (p + 4)) = ts := congrArg Prod.fst hin
        have h2 : t' = t := congrArg Prod.snd hin
        constructor
        · omega
        · rw [← h1, ht, h2]
  · rw [if_neg hk] at h; exact Option.noConfusion h

theorem findFrom_some {s : List Char} :
    ∀ fuel p fp ts t, findFrom s p fuel = some (fp, ts, t) →
      p ≤ fp ∧ fromTableAt s fp = some (ts, t) := by
  intro fuel
  induction fuel with
  | zero => intro p fp ts t h; exact Option.noConfusion h
  | succ fuel ih =>
    intro p fp ts t h
    unfold findFrom at h
    cases hf : fromTableAt s p with
    | some v =>
      rw [hf] at h
      obtain ⟨ts', t'⟩ := v
      have := Option.some.inj h
      have hp : p = fp := congrArg Prod.fst this
      have hrest : (ts', t') = (ts, t) := congrArg Prod.snd this
      constructor
      · omega
      · rw [← hp, hf, hrest]
    | none =>
      rw [hf] at h
      by_cases hl : s.length < p
      · rw [if_pos hl] at h; exact Option.noConfusion h
      · rw [if_neg hl] at h
        have := ih (p + 1) fp ts t h
        exact ⟨by omega, this.2⟩

theorem findEnd_ge (s : List Char) : ∀ fuel q, q ≤ findEnd s q fuel := by
  intro fuel
  induction fuel with
  | zero => intro q; exact Nat.le_refl q
  | succ fuel ih =>
    intro q
    unfold findEnd
    by_cases h : stmtEndCond s q = true
    · rw [if_pos h]
    · rw [if_neg h]
      have := ih (q + 1)
      omega

theorem findEnd_cond (s : List Char) :
    ∀ fuel q, q ≤ s.length → s.length - q < fuel →
      stmtEndCond s (findEnd s q fuel) = true := by
  intro fuel
  induction fuel with
  | zero => intro q _ h; omega
  | succ fuel ih =>
    intro q hq hfuel
    unfold findEnd
    by_cases h : stmtEndCond s q = true
    · rw [if_pos h]; exact h
    · rw [if_neg h]
      have hne : ¬ s.length ≤ q := by
        intro hle
        apply h
        unfold stmtEndCond
        simp [hle]
      exact ih (q + 1) (by omega) (by omega)

theorem sqlFindIter_start_le (s : List Char) :
    ∀ fuel i m, m ∈ sqlFindIter s i fuel → i ≤ m.mstart := by
  intro fuel
  induction fuel with
  | zero => intro i m h; exact absurd h (List.not_mem_nil m)
  | succ fuel ih =>
    intro i m h
    unfold sqlFindIter at h
    by_cases hl : s.length < i
    · rw [if_pos hl] at h; exact absurd h (List.not_mem_nil m)
    · rw [if_neg hl] at h
      by_cases hk : keywordAt s i selectChars = true
      · rw [if_pos hk] at h
        cases hf : findFrom s (i + 6) (s.length + 1) with
        | none =>
          rw [hf] at h
          have := ih (i + 1) m h
          omega
        | some v =>
          obtain ⟨fp, ts, t⟩ := v
          rw [hf] at h
          simp only at h
          rcases List.mem_cons.mp h with heq | hmem
          · rw [heq]
          · have h1 := findFrom_some _ (i + 6) fp ts t hf
            have h2 := (fromTableAt_some h1.2).1
            have h3 := findEnd_ge s (s.length + 1) (ts + 4)
            have := ih _ m hmem
            omega
      · rw [if_neg hk] at h
        have := ih (i + 1) m h
        omega

theorem sqlFindIter_chain (s : List Char) :
    ∀ fuel i, List.Chain' (fun a b => a.mend ≤ b.mstart) (sqlFindIter s i fuel) := by
  intro fuel
  induction fuel with
  | zero => intro i; exact List.chain'_nil
  | succ fuel ih =>
    intro i
    unfold sqlFindIter
    by_cases hl : s.length < i
    · rw [if_pos hl]; exact List.chain'_nil
    · rw [if_neg hl]
      by_cases hk : keywordAt s i selectChars = true
      · rw [if_pos hk]
        cases hf : findFrom s (i + 6) (s.length + 1) with
        | none => exact ih (i + 1)
        | some v =>
          obtain ⟨fp, ts, t⟩ := v
          simp only
          refine List.chain'_cons'.mpr ⟨?_, ih _⟩
          intro y hy
          exact sqlFindIter_start_le s fuel _ y (List.mem_of_mem_head? hy)
      · rw [if_neg hk]; exact ih (i + 1)

theorem sqlFindIter_endCond (s : List Char) :
    ∀ fuel i m, m ∈ sqlFindIter s i fuel → stmtEndCond s m.mend = true := by
  intro fuel
  induction fuel with
  | zero => intro i m h; exact absurd h (List.not_mem_nil m)
  | succ fuel ih =>
    intro i m h
    unfold sqlFindIter at h
    by_cases hl : s.length < i
    · rw [if_pos hl] at h; exact absurd h (List.not_mem_nil m)
    · rw [if_neg hl] at h
      by_cases hk : keywordAt s i selectChars = true
      · rw [if_pos hk] at h
        cases hf : findFrom s (i + 6) (s.length + 1) with
        | none => rw [hf] at h; exact ih (i + 1) m h
        | some v =>
          obtain ⟨fp, ts, t⟩ := v
          rw [hf] at h
          simp only at h
          rcases List.mem_cons.mp h with heq | hmem
          · have h1 := findFrom_some _ (i + 6) fp ts t hf
            have h2 := tableAt_some_bound (fromTableAt_some h1.2).2
            rw [heq]
            exact findEnd_cond s (s.length + 1) (ts + 4) (by omega) (by omega)
          · exact ih _ m hmem
      · rw [if_neg hk] at h; exact ih (i + 1) m h

theorem sqlFindIter_table (s : List Char) :
    ∀ fuel i m, m ∈ sqlFindIter s i fuel →
      m.table = marcChars ∨ m.table = mardChars := by
  intro fuel
  induction fuel with
  | zero => intro i m h; exact absurd h (List.not_mem_nil m)
  | succ fuel ih =>
    intro i m h
    unfold sqlFindIter at h
    by_cases hl : s.length < i
    · rw [if_pos hl] at h; exact absurd h (List.not_mem_nil m)
    · rw [if_neg hl] at h
      by_cases hk : keywordAt s i selectChars = true
      · rw [if_pos hk] at h
        cases hf : findFrom s (i + 6) (s.length + 1) with
        | none => rw [hf] at h; exact ih (i + 1) m h
        | some v =>
          obtain ⟨fp, ts, t⟩ := v
          rw [hf] at h
          simp only at h
          rcases List.mem_cons.mp h with heq | hmem
          · have h1 := findFrom_some _ (i + 6) fp ts t hf
            have h2 := tableAt_cases (fromTableAt_some h1.2).2
            rw [heq]
            exact h2
          · exact ih _ m hmem
      · rw [if_neg hk] at h; exact ih (i + 1) m h

/- ------------------------------------------------------------------ -/
/- Absence of a watched source table kills the statement regex.        -/
/- ------------------------------------------------------------------ -/

theorem litAtCI_false_of_ge {s : List Char} {p : Nat} {c : Char} {cs : List Char}
    (h : s.length ≤ p) : litAtCI s p (c :: cs) = false := by
  unfold litAtCI
  rw [charAt, List.get?_eq_none.mpr h]

theorem fromTableHere_false_of_ge {s : List Char} {p : Nat}
    (h : s.length ≤ p) : fromTableHere s p = false := by
  unfold fromTableHere fromTableAt keywordAt
  rw [show fromChars = 'F' :: "ROM".data from rfl, litAtCI_false_of_ge h]
  simp

theorem findFrom_none {s : List Char} (hall : ∀ p, fromTableHere s p = false) :
    ∀ fuel p, findFrom s p fuel = none := by
  intro fuel
  induction fuel with
  | zero => intro p; rfl
  | succ fuel ih =>
    intro p
    unfold findFrom
    have h := hall p
    unfold fromTableHere at h
    cases hf : fromTableAt s p with
    | some v => rw [hf] at h; exact Bool.noConfusion (Option.isSome_some ▸ h)
    | none =>
      by_cases hl : s.length < p
      · rw [if_pos hl]
      · rw [if_neg hl]; exact ih (p + 1)

theorem sqlFindIter_nil {s : List Char} (hall : ∀ p, fromTableHere s p = false) :
    ∀ fuel i, sqlFindIter s i fuel = [] := by
  intro fuel
  induction fuel with
  | zero => intro i; rfl
  | succ fuel ih =>
    intro i
    unfold sqlFindIter
    rw [findFrom_none hall]
    by_cases hl : s.length < i
    · rw [if_pos hl]
    · rw [if_neg hl]
      by_cases hk : keywordAt s i selectChars = true
      · rw [if_pos hk]; exact ih (i + 1)
      · rw [if_neg hk]; exact ih (i + 1)

/- ------------------------------------------------------------------ -/
/- Emission invariants shared by all finding producers.                -/
/- ------------------------------------------------------------------ -/

theorem obsolete_split : OBSOLETE_FIELDNAMES = marcFields ++ mardFields := by decide

theorem tblLookup_marc : tblLookup marcChars = marcFields := by decide

theorem tblLookup_mard : tblLookup mardChars = mardFields := by decide

theorem contains_flat {t f : List Char} (ht : t = marcChars ∨ t = mardChars)
    (hc : (tblLookup t).contains f = true) :
    OBSOLETE_FIELDNAMES.contains f = true := by
  have hmem : f ∈ tblLookup t := List.elem_iff.mp hc
  apply List.elem_iff.mpr
  rw [obsolete_split]
  rcases ht with h | h
  · rw [h, tblLookup_marc] at hmem
    exact List.mem_append_left _ hmem
  · rw [h, tblLookup_mard] at hmem
    exact List.mem_append_right _ hmem

theorem qualFindIter_table (t : List Char) :
    ∀ fuel i qm, qm ∈ qualFindIter t i fuel →
      qm.table = marcChars ∨ qm.table = mardChars := by
  intro fuel
  induction fuel with
  | zero => intro i qm h; exact absurd h (List.not_mem_nil qm)
  | succ fuel ih =>
    intro i qm h
    unfold qualFindIter at h
    by_cases hl : t.length < i
    · rw [if_pos hl] at h; exact absurd h (List.not_mem_nil qm)
    · rw [if_neg hl] at h
      cases hq : (if wb t i then qualAt t i else none) with
      | none => rw [hq] at h; exact ih (i + 1) qm h
      | some tb =>
        rw [hq] at h
        simp only at h
        by_cases hk : leadingWord (t.drop (i + 5)) = 0
        · rw [if_pos hk] at h; exact ih (i + 1) qm h
        · rw [if_neg hk] at h
          have htb : qualAt t i = some tb := by
            by_cases hw : wb t i = true
            · rw [if_pos hw] at hq; exact hq
            · rw [if_neg hw] at hq; exact Option.noConfusion hq
          rcases List.mem_cons.mp h with heq | hmem
          · rw [heq]; exact qualAt_cases htb
          · exact ih _ qm hmem

theorem declQualIter_table (s : List Char) :
    ∀ fuel i qm, qm ∈ declQualIter s i fuel →
      qm.table = marcChars ∨ qm.table = mardChars := by
  intro fuel
  induction fuel with
  | zero => intro i qm h; exact absurd h (List.not_mem_nil qm)
  | succ fuel ih =>
    intro i qm h
    unfold declQualIter at h
    by_cases hl : s.length < i
    · rw [if_pos hl] at h; exact absurd h (List.not_mem_nil qm)
    · rw [if_neg hl] at h
      by_cases hkw : declKwAt s i = true
      · rw [if_pos hkw] at h
        simp only at h
        by_cases hw : leadingWS (s.drop (i + 4)) = 0
        · rw [if_pos hw] at h; exact ih (i + 1) qm h
        · rw [if_neg hw] at h
          cases hq : qualAt s (i + 4 + leadingWS (s.drop (i + 4))) with
          | none => rw [hq] at h; exact ih (i + 1) qm h
          | some tb =>
            rw [hq] at h
            simp only at h
            by_cases hk : leadingWord (s.drop (i + 4 + leadingWS (s.drop (i + 4)) + 5)) = 0
            · rw [if_pos hk] at h; exact ih (i + 1) qm h
            · rw [if_neg hk] at h
              rcases List.mem_cons.mp h with heq | hmem
              · rw [heq]; exact qualAt_cases hq
              · exact ih _ qm hmem
      · rw [if_neg hkw] at h; exact ih (i + 1) qm h

theorem declQualIter_kw (s : List Char) :
    ∀ fuel i qm, qm ∈ declQualIter s i fuel → declKwAt s qm.qstart = true := by
  intro fuel
  induction fuel with
  | zero => intro i qm h; exact absurd h (List.not_mem_nil qm)
  | succ fuel ih =>
    intro i qm h
    unfold declQualIter at h
    by_cases hl : s.length < i
    · rw [if_pos hl] at h; exact absurd h (List.not_mem_nil qm)
    · rw [if_neg hl] at h
      by_cases hkw : declKwAt s i = true
      · rw [if_pos hkw] at h
        simp only at h
        by_cases hw : leadingWS (s.drop (i + 4)) = 0
        · rw [if_pos hw] at h; exact ih (i + 1) qm h
        · rw [if_neg hw] at h
          cases hq : qualAt s (i + 4 + leadingWS (s.drop (i + 4))) with
          | none => rw [hq] at h; exact ih (i + 1) qm h
          | some tb =>
            rw [hq] at h
            simp only at h
            by_cases hk : leadingWord (s.drop (i + 4 + leadingWS (s.drop (i + 4)) + 5)) = 0
            · rw [if_pos hk] at h; exact ih (i + 1) qm h
            · rw [if_neg hk] at h
              rcases List.mem_cons.mp h with heq | hmem
              · rw [heq]; exact hkw
              · exact ih _ qm hmem
      · rw [if_neg hkw] at h; exact ih (i + 1) qm h

theorem qualFindings_ok (t : List Char) :
    ∀ f ∈ qualFindings t, findingOK f = true := by
  intro f hf
  unfold qualFindings at hf
  obtain ⟨qm, hqm, hsome⟩ := List.mem_filterMap.mp hf
  by_cases hcond : (isWatched qm.table && (tblLookup qm.table).contains qm.field) = true
  · rw [if_pos hcond] at hsome
    have hco := (Bool.and_eq_true _ _ |>.mp hcond).2
    have htb := qualFindIter_table t _ 0 qm hqm
    rw [← Option.some.inj hsome]
    unfold findingOK
    simp only
    rw [Bool.and_eq_true, Bool.and_eq_true, Bool.and_eq_true]
    refine ⟨⟨⟨?_, hco⟩, contains_flat htb hco⟩, by simp⟩
    rcases htb with h | h <;> simp [h]
  · rw [if_neg hcond] at hsome; exact Option.noConfusion hsome

theorem unqualFindings_ok (s : List Char) (m : SqlMatch)
    (htb : m.table = marcChars ∨ m.table = mardChars) :
    ∀ f ∈ unqualFindings s m, findingOK f = true := by
  intro f hf
  unfold unqualFindings at hf
  obtain ⟨tok, htok, hsome⟩ := List.mem_filterMap.mp hf
  simp only at hsome
  by_cases hcond : (tblLookup m.table).contains (procTok tok) = true
  · rw [if_pos hcond] at hsome
    rw [← Option.some.inj hsome]
    unfold findingOK
    simp only
    rw [Bool.and_eq_true, Bool.and_eq_true, Bool.and_eq_true]
    refine ⟨⟨⟨?_, hcond⟩, contains_flat htb hcond⟩, by simp⟩
    rcases htb with h | h <;> simp [h]
  · rw [if_neg hcond] at hsome; exact Option.noConfusion hsome

theorem qualDeclFindings_ok (s : List Char) :
    ∀ f ∈ qualDeclFindings s, findingOK f = true := by
  intro f hf
  unfold qualDeclFindings at hf
  obtain ⟨qm, hqm, hsome⟩ := List.mem_filterMap.mp hf
  by_cases hcond : (isWatched qm.table && (tblLookup qm.table).contains qm.field) = true
  · rw [if_pos hcond] at hsome
    have hco := (Bool.and_eq_true _ _ |>.mp hcond).2
    have htb := declQualIter_table s _ 0 qm hqm
    rw [← Option.some.inj hsome]
    unfold findingOK
    simp only
    rw [Bool.and_eq_true, Bool.and_eq_true, Bool.and_eq_true]
    refine ⟨⟨⟨?_, hco⟩, contains_flat htb hco⟩, by simp⟩
    rcases htb with h | h <;> simp [h]
  · rw [if_neg hcond] at hsome; exact Option.noConfusion hsome

theorem deFindings_ok (s : List Char) :
    ∀ f ∈ deFindings s, findingOK f = true := by
  intro f hf
  unfold deFindings at hf
  obtain ⟨dm, hdm, hsome⟩ := List.mem_filterMap.mp hf
  by_cases hcond : OBSOLETE_FIELDNAMES.contains dm.field = true
  · rw [if_pos hcond] at hsome
    rw [← Option.some.inj hsome]
    unfold findingOK
    simp only
    rw [Bool.and_eq_true]
    exact ⟨hcond, by simp⟩
  · rw [if_neg hcond] at hsome; exact Option.noConfusion hsome

theorem scan_sql_ok (s : List Char) : ∀ f ∈ scan_sql s, findingOK f = true := by
  intro f hf
  unfold scan_sql at hf
  obtain ⟨m, hm, hf'⟩ := List.mem_flatMap.mp hf
  have htb := sqlFindIter_table s _ 0 m hm
  unfold stmtFindings at hf'
  rcases List.mem_append.mp hf' with h12 | h3
  · rcases List.mem_append.mp h12 with h1 | h2
    · exact qualFindings_ok _ f h1
    · exact unqualFindings_ok s m htb f h2
  · exact qualFindings_ok _ f h3

theorem scan_declarations_ok (s : List Char) :
    ∀ f ∈ scan_declarations s, findingOK f = true := by
  intro f hf
  rcases List.mem_append.mp hf with h1 | h2
  · exact qualDeclFindings_ok s f h1
  · exact deFindings_ok s f h2

theorem unqual_token_mem :
    ∀ (s : List Char) (m : SqlMatch) (tok : List Char),
      m ∈ sqlMatches s → tok ∈ selTokens s m →
      (tblLookup m.table).contains (procTok tok) = true →
      (⟨some m.table, procTok tok, (m.mstart, m.mend),
        todo_comment m.table (procTok tok)⟩ : Finding) ∈ scan_sql s := by
  intro s m tok hm htok hcond
  unfold scan_sql
  apply List.mem_flatMap.mpr
  refine ⟨m, hm, ?_⟩
  unfold stmtFindings
  apply List.mem_append_left
  apply List.mem_append_right
  unfold unqualFindings
  apply List.mem_filterMap.mpr
  refine ⟨tok, htok, ?_⟩
  simp only [hcond, if_true]

theorem de_token_mem :
    ∀ (s : List Char) (dm : DeMatch),
      dm ∈ declDeIter s 0 (s.length + 1) →
      OBSOLETE_FIELDNAMES.contains dm.field = true →
      (⟨none, dm.field, (dm.dstart, dm.dend),
        todo_comment_dataelement dm.field⟩ : Finding) ∈ scan_declarations s := by
  intro s dm hdm hcond
  unfold scan_declarations
  apply List.mem_append_right
  unfold deFindings
  apply List.mem_filterMap.mpr
  refine ⟨dm, hdm, ?_⟩
  simp only [hcond, if_true]

theorem qualDeclFindings_kw (s : List Char) :
    ∀ f ∈ qualDeclFindings s, declKwAt s f.span.1 = true := by
  intro f hf
  unfold qualDeclFindings at hf
  obtain ⟨qm, hqm, hsome⟩ := List.mem_filterMap.mp hf
  by_cases hcond : (isWatched qm.table && (tblLookup qm.table).contains qm.field) = true
  · rw [if_pos hcond] at hsome
    rw [← Option.some.inj hsome]
    exact declQualIter_kw s _ 0 qm hqm
  · rw [if_neg hcond] at hsome; exact Option.noConfusion hsome

/- ------------------------------------------------------------------ -/
/- Claim theorems.                                                     -/
/- ------------------------------------------------------------------ -/

/-- C1: multi-statement isolation.  Consecutive statement matches never
overlap (each match ends no later than the next match starts), every match
ends exactly where the lookahead boundary holds (the next statement-start
keyword, or the end-of-text positions accepted by the dollar anchor), and on
a buffer of two consecutive statements of which only the first references a
watched table, scan_sql yields exactly one finding whose span lies within the
first statement's own boundaries (0, 24). -/
theorem C1_multi_statement_isolation :
    (∀ s : List Char, List.Chain' (fun a b => a.mend ≤ b.mstart) (sqlMatches s)) ∧
    (∀ s : List Char, (sqlMatches s).all (fun m => stmtEndCond s m.mend) = true) ∧
    (sqlMatches c1input).map (fun m => (m.mstart, m.mend)) = [(0, 24)] ∧
    scan_sql c1input =
      [⟨some marcChars, "MEGRU".data, (0, 24), todo_comment marcChars "MEGRU".data⟩] := by
  refine ⟨fun s => sqlFindIter_chain s _ 0, fun s => ?_, by decide, by decide⟩
  exact List.all_eq_true.mpr fun m hm => sqlFindIter_endCond s _ 0 m hm

/-- C2: evaluation at the failing input.  For `SELECT MARC-MEGRU FROM MARC.`
the emitted finding's span is (1, 11) — an offset inside the captured
select-list substring — whereas the substring `MARC-MEGRU` of the
caller-supplied text occupies (7, 17); the span (1, 11) does not cover it. -/
theorem C2_relative_span_eval :
    scan_sql c2input =
      [⟨some marcChars, "MEGRU".data, (1, 11), todo_comment marcChars "MEGRU".data⟩] ∧
    sub c2input 7 17 = "MARC-MEGRU".data ∧
    sub c2input 1 11 ≠ "MARC-MEGRU".data := by decide

/-- C3: no false watched-table positive.  If no position of the text carries
a FROM keyword followed by whitespace and a watched table name (the
source-table token of the statement pattern), the statement regex never
matches and scan_sql returns no findings — regardless of any `MARC-` or
`MARD-` substring elsewhere in the statement. -/
theorem C3_no_false_watched_positive (s : List Char)
    (h : ∀ p, p < s.length → fromTableHere s p = false) : scan_sql s = [] := by
  have hall : ∀ p, fromTableHere s p = false := by
    intro p
    by_cases hp : p < s.length
    · exact h p hp
    · exact fromTableHere_false_of_ge (by omega)
  unfold scan_sql sqlMatches
  rw [sqlFindIter_nil hall]
  rfl

/-- Witness for C3 at `SELECT A FROM ZTAB WHERE MARC-MEGRU = 1.`. -/
theorem C3_witness : scan_sql c3input = [] :=
  C3_no_false_watched_positive c3input (by decide)

/-- C4 counterexample: on the claim's own example `DATA x TYPE MARC-ALTSL.`
the two declaration scans do NOT both emit findings — the data-element scan
captures the token `MARC` (the table name, not the trailing field), which is
not an obsolete field name, so it emits nothing and scan_declarations returns
exactly the one qualified finding. -/
theorem C4_no_duplicate_counterexample :
    scan_declarations c4input =
      [⟨some marcChars, "ALTSL".data, (7, 22), todo_comment marcChars "ALTSL".data⟩] ∧
    deFindings c4input = [] ∧
    (declDeIter c4input 0 (c4input.length + 1)).map
      (fun dm => (dm.field, dm.dstart, dm.dend)) = [("MARC".data, 7, 16)] := by decide

/-- C4 amended: the qualified and unqualified declaration scans both run over
the full buffer independently (scan_declarations is their concatenation),
but on a qualified declaration such as `DATA x TYPE MARC-ALTSL.` the
unqualified scan's captured identifier is the table name `MARC`, which is not
in the flattened obsolete-field set, so it emits no finding there and no
duplicate findings arise: only the qualified scan fires. -/
theorem C4_scans_independent :
    scan_declarations c4input = qualDeclFindings c4input ++ deFindings c4input ∧
    qualDeclFindings c4input =
      [⟨some marcChars, "ALTSL".data, (7, 22), todo_comment marcChars "ALTSL".data⟩] ∧
    deFindings c4input = [] ∧
    OBSOLETE_FIELDNAMES.contains marcChars = false :=
  ⟨rfl, by decide, by decide, by decide⟩

/-- C5 counterexample: for `DATA lv_x TYPE MARD-LSOBS.` the finding's span is
(10, 25), which covers `TYPE MARD-LSOBS` — the whole declaration match
including the keyword — and not the qualified reference `MARD-LSOBS` alone,
whose span is (15, 25). -/
theorem C5_span_counterexample :
    scan_declarations c5input =
      [⟨some mardChars, "LSOBS".data, (10, 25), todo_comment mardChars "LSOBS".data⟩] ∧
    sub c5input 10 25 = "TYPE MARD-LSOBS".data ∧
    sub c5input 15 25 = "MARD-LSOBS".data ∧
    ((10, 25) : Nat × Nat) ≠ ((15, 25) : Nat × Nat) := by decide

/-- C5 amended: for `DATA lv_x TYPE MARD-LSOBS.` scan_declarations produces a
finding with table MARD and field LSOBS carrying the table-specific
remediation note, anchored at the span of the entire declaration match — a
span that starts at the TYPE/LIKE keyword (so it includes the declaration
keyword) and ends at the end of the field identifier. -/
theorem C5_qualified_declaration :
    scan_declarations c5input =
      [⟨some mardChars, "LSOBS".data, (10, 25), todo_comment mardChars "LSOBS".data⟩] ∧
    sub c5input 10 25 = "TYPE MARD-LSOBS".data ∧
    (∀ s : List Char, (qualDeclFindings s).all (fun f => declKwAt s f.span.1) = true) := by
  refine ⟨by decide, by decide, fun s => ?_⟩
  exact List.all_eq_true.mpr fun f hf => qualDeclFindings_kw s f hf

/-- C6: unqualified selection-list detection.  For
`SELECT MEGRU FROM MARC WHERE MATNR = '1'.` scan_sql produces the finding
(MARC, MEGRU) anchored at the whole-statement span (0, 41); and in general
every token of a statement's selection list that cleans up to an obsolete
field of the statement's own table contributes a finding anchored at the
whole-statement span. -/
theorem C6_unqualified_selection :
    scan_sql c6input =
      [⟨some marcChars, "MEGRU".data, (0, 41), todo_comment marcChars "MEGRU".data⟩] ∧
    (∀ (s : List Char) (m : SqlMatch) (tok : List Char),
      m ∈ sqlMatches s → tok ∈ selTokens s m →
      (tblLookup m.table).contains (procTok tok) = true →
      (⟨some m.table, procTok tok, (m.mstart, m.mend),
        todo_comment m.table (procTok tok)⟩ : Finding) ∈ scan_sql s) :=
  ⟨by decide, unqual_token_mem⟩

/-- Witness for C6: the general part applied at the concrete statement match
of the example input, with token MEGRU. -/
theorem C6_witness :
    (⟨some marcChars, "MEGRU".data, (0, 41),
      todo_comment marcChars "MEGRU".data⟩ : Finding) ∈ scan_sql c6input :=
  C6_unqualified_selection.2 c6input ⟨0, 13, marcChars, 18, 41⟩ "MEGRU".data
    (by decide) (by decide) (by decide)

/-- C7: unqualified data-element declaration detection.  For
`DATA lv_y TYPE ALTSL.` scan_declarations produces the finding (no table,
ALTSL) with the generic data-element note; and in general every data-element
declaration match whose bare identifier belongs to the flattened
obsolete-field set yields such a finding. -/
theorem C7_data_element_declaration :
    scan_declarations c7input =
      [⟨none, "ALTSL".data, (10, 20), todo_comment_dataelement "ALTSL".data⟩] ∧
    (∀ (s : List Char) (dm : DeMatch),
      dm ∈ declDeIter s 0 (s.length + 1) →
      OBSOLETE_FIELDNAMES.contains dm.field = true →
      (⟨none, dm.field, (dm.dstart, dm.dend),
        todo_comment_dataelement dm.field⟩ : Finding) ∈ scan_declarations s) :=
  ⟨by decide, de_token_mem⟩

/-- Witness for C7: the general part applied at the concrete data-element
match of the example input. -/
theorem C7_witness :
    (⟨none, "ALTSL".data, (10, 20),
      todo_comment_dataelement "ALTSL".data⟩ : Finding) ∈ scan_declarations c7input :=
  C7_data_element_declaration.2 c7input ⟨"ALTSL".data, 10, 20⟩ (by decide) (by decide)

/-- C8: case insensitivity.  `select megru from marc.` yields exactly the
same findings as `SELECT MEGRU FROM MARC.`, and in general upper-casing an
entire input text changes neither scan's output (matching compares on the
upper-cased form throughout). -/
theorem C8_case_insensitivity :
    scan_sql c8lower = scan_sql c8upper ∧
    (∀ s : List Char, scan_sql (s.map Char.toUpper) = scan_sql s) ∧
    (∀ s : List Char, scan_declarations (s.map Char.toUpper) = scan_declarations s) :=
  ⟨by decide, scan_sql_map, scan_declarations_map⟩

/-- C9: empty or malformed input is not an error.  Both scanners return the
empty list on empty text, a unit whose code field is absent (None) is
scanned as empty text and yields an empty selects list, and remediate_array
returns such a unit's data with selects empty. -/
theorem C9_empty_input :
    scan_sql [] = [] ∧ scan_declarations [] = [] ∧
    (∀ (a b c : List Char) (d : Option (List Char)) (e f : Option Int),
      unitSelects ⟨a, b, c, d, e, f, none⟩ = []) ∧
    remediate_array [⟨"P".data, "I".data, "K".data, none, none, none, none⟩] =
      [(⟨"P".data, "I".data, "K".data, none, none, none, none⟩, [])] :=
  ⟨rfl, rfl, fun _ _ _ _ _ _ => rfl, by decide⟩

/-- C10: output registry invariant.  Every finding emitted by scan_sql or
scan_declarations has a field in the flattened obsolete-field set; when its
table is present it is MARC or MARD, the field is in that table's own
obsolete list, and the suggestion is the table-specific TODO template; when
the table is absent the suggestion is the generic data-element template. -/
theorem C10_registry_invariant :
    ∀ s : List Char, ((scan_sql s ++ scan_declarations s).all findingOK) = true := by
  intro s
  apply List.all_eq_true.mpr
  intro f hf
  rcases List.mem_append.mp hf with h | h
  · exact scan_sql_ok s f h
  · exact scan_declarations_ok s f h

end DBRule
